import Mathlib

/-!
Verification of the Faebench word-guessing benchmark harness.

This file gives a shallow embedding, in Lean 4, of the core of the
repository: the game-state engine (`Environment.py`), the scoring engine
(`Rewards.py`), the free-text action codec and turn/episode drivers
(`Orchestrator.py`), and the multi-guesser consensus protocol
(`core/CrossTalk.py`).  Python dictionaries are modelled as association
lists or structures with `Option` fields (a missing key is `none`),
Python exceptions as `Except`/`Option`, and `random.shuffle` as an
explicit permutation parameter.  Theorems about the embedding settle the
specification claims.
-/

namespace Faebench

/-- Outcome strings produced by `Environment.handle_player_action` for a
single guessed word. -/
inductive Outcome where
  | correct
  | neutral
  | opponent
  | already_guessed
  | invalid
deriving DecidableEq, Repr

/-- One entry of a guess log: the Python dict
`{"word": guess, "result": result}`. -/
structure GuessResult where
  word : String
  result : Outcome
deriving DecidableEq, Repr

/-- Python `d.get(k, default)` on an association list (first binding wins;
the environment's dicts never hold duplicate keys). -/
def lookupD {α : Type} (m : List (Nat × α)) (k : Nat) (d : α) : α :=
  match m.find? (fun p => p.1 == k) with
  | some p => p.2
  | none => d

/-- In-place mutation `d[k] = f d[k]` of an association-list entry.  When
`k` is absent this is a no-op, whereas Python raises `KeyError`; theorems
that depend on the entry therefore carry an explicit key-presence
hypothesis. -/
def updateEntry {α : Type} (m : List (Nat × α)) (k : Nat) (f : α → α) : List (Nat × α) :=
  m.map (fun p => if p.1 = k then (p.1, f p.2) else p)

/-- Game state owned by `Environment` (`src/Environment.py`).  `word_sets`
and `guessed_words_log` are Python dicts keyed by team id, kept here as
association lists in insertion order (Python dicts iterate in insertion
order, which `check_win`/`get_winner` rely on). -/
structure Environment where
  teams : Nat
  max_words : Nat
  board : List String
  word_sets : List (Nat × List String)
  neutral_words : List String
  guessed_words : List String
  guessed_words_log : List (Nat × List GuessResult)
deriving DecidableEq, Repr

/-- List of `words` with the already guessed ones removed: the repeated
comprehension `[w for w in words if w not in guessed]`. -/
def remainingWords (words guessed : List String) : List String :=
  words.filter (fun w => decide (w ∉ guessed))

/-- Translation of `Environment._setup_board`.  The two calls to
`random.shuffle` are modelled by the permutation parameters `shuffle1`
(applied to the incoming word list) and `shuffle2` (applied to the copy
of the board that is partitioned into team sets). -/
def Environment.setup_board (shuffle1 shuffle2 : List String → List String)
    (env : Environment) (word_list : List String) : Environment :=
  let word_list := shuffle1 word_list
  let board := word_list.take env.max_words
  let board_copy := shuffle2 board
  if env.teams > 1 then
    let ws1 := board_copy.take 8
    let ws2 := (board_copy.drop 8).take 8
    { env with
      board := board
      word_sets := [(1, ws1), (2, ws2)]
      neutral_words := board.filter (fun w => decide (w ∉ ws1) && decide (w ∉ ws2)) }
  else
    let ws1 := board_copy.take 8
    { env with
      board := board
      word_sets := [(1, ws1)]
      neutral_words := board.filter (fun w => decide (w ∉ ws1)) }

/-- Configuration dict accepted by `Environment.__init__`; absent keys are
`none` and take the `.get` defaults. -/
structure EnvConfig where
  teams : Nat := 1
  max_words : Nat := 25
  word_list_file : Option String := none
  test_flag : Bool := false
deriving Repr

/-- Translation of `Environment.__init__` for a dict config.  Reading the
word file (`open`/`readlines`/`strip`) is the external word source and is
modelled by the collaborator `read_lines`; the file name is truthy in
Python only when it is a non-empty string.  A raised `ValueError` is the
`Except.error` branch. -/
def Environment.init (config : EnvConfig) (read_lines : String → List String)
    (shuffle1 shuffle2 : List String → List String) : Except String Environment :=
  let base : Environment :=
    { teams := config.teams
      max_words := config.max_words
      board := []
      word_sets := []
      neutral_words := []
      guessed_words := []
      guessed_words_log := (List.range' 1 config.teams).map (fun i => (i, [])) }
  if (config.word_list_file.getD "") ≠ "" then
    let word_list := read_lines (config.word_list_file.getD "")
    Except.ok (base.setup_board shuffle1 shuffle2 word_list)
  else if config.test_flag then
    Except.ok base
  else
    Except.error "No word list provided in config"

/-- Translation of `Environment.check_win`.  For `teams <= 1` the source
indexes `self.word_sets[1]` directly; real environments always hold key
`1` there (see `Environment.wf`), and the model reads it with default
`[]`. -/
def Environment.check_win (env : Environment) : Bool :=
  if env.teams > 1 then
    env.word_sets.any (fun p => (remainingWords p.2 env.guessed_words).isEmpty)
  else
    (remainingWords (lookupD env.word_sets 1 []) env.guessed_words).isEmpty

/-- Translation of `Environment.get_winner`: first team in dict-iteration
order whose word set is fully guessed, and `-1` when there is none. -/
def Environment.get_winner (env : Environment) : Int :=
  if env.teams > 1 then
    match env.word_sets.find? (fun p => (remainingWords p.2 env.guessed_words).isEmpty) with
    | some p => (p.1 : Int)
    | none => -1
  else
    if (remainingWords (lookupD env.word_sets 1 []) env.guessed_words).isEmpty then 1
    else -1

/-- Well-formedness of an environment's team dictionaries: the keys of
`word_sets` are exactly `1, …, teams` in insertion order (with a single
set under key `1` when `teams ≤ 1`), as `_setup_board` establishes. -/
def Environment.wf (env : Environment) : Prop :=
  env.word_sets.map Prod.fst = List.range' 1 (max env.teams 1)

instance (env : Environment) : Decidable env.wf := by
  unfold Environment.wf; infer_instance

/-- Loop body data of `Environment.handle_player_action`: the updated
environment, the ordered `results` list and the `correct_count`. -/
def Environment.applyGuessList (env : Environment) (team_id : Nat) :
    List String → Environment × List GuessResult × Nat
  | [] => (env, [], 0)
  | guess :: rest =>
    if guess ∈ env.guessed_words then
      let r := env.applyGuessList team_id rest
      (r.1, ⟨guess, Outcome.already_guessed⟩ :: r.2.1, r.2.2)
    else if guess ∉ env.board then
      let r := env.applyGuessList team_id rest
      (r.1, ⟨guess, Outcome.invalid⟩ :: r.2.1, r.2.2)
    else
      let result :=
        if guess ∈ lookupD env.word_sets team_id [] then Outcome.correct
        else if guess ∈ env.neutral_words then Outcome.neutral
        else Outcome.opponent
      let env1 :=
        { env with
          guessed_words := env.guessed_words ++ [guess]
          guessed_words_log :=
            updateEntry env.guessed_words_log team_id
              (fun l => l ++ [(⟨guess, result⟩ : GuessResult)]) }
      let r := env1.applyGuessList team_id rest
      (r.1, ⟨guess, result⟩ :: r.2.1,
        (if result = Outcome.correct then 1 else 0) + r.2.2)

/-- Return dict of `Environment.handle_player_action`. -/
structure PlayerHandleResult where
  success : Bool
  results : List GuessResult
  correct_count : Nat
  game_over : Bool
deriving DecidableEq, Repr

/-- Translation of `Environment.handle_player_action`: resolve the guesses
in order against the evolving state, then report success, the outcome
list, the correct count and the win check on the final state. -/
def Environment.handle_player_action (env : Environment) (guesses : List String)
    (team_id : Nat := 1) : Environment × PlayerHandleResult :=
  let r := env.applyGuessList team_id guesses
  (r.1, { success := true, results := r.2.1, correct_count := r.2.2,
          game_over := r.1.check_win })

/-- Specification-side resolution of a guess list, stated from the spec's
words (§4.1 `applyGuesses`): for each word in order — if already among
the guessed words, `already_guessed`; else if not on the board,
`invalid`; else `correct`/`neutral`/`opponent` by set membership, the
word being added to the guessed words as it is resolved so that a later
duplicate within the same call is `already_guessed`. -/
def applyGuessesSpec (board teamWords neutralWords : List String) :
    (guessedBefore : List String) → List String → List GuessResult
  | _, [] => []
  | guessedBefore, w :: ws =>
    if w ∈ guessedBefore then
      ⟨w, Outcome.already_guessed⟩ :: applyGuessesSpec board teamWords neutralWords guessedBefore ws
    else if w ∉ board then
      ⟨w, Outcome.invalid⟩ :: applyGuessesSpec board teamWords neutralWords guessedBefore ws
    else
      let o :=
        if w ∈ teamWords then Outcome.correct
        else if w ∈ neutralWords then Outcome.neutral
        else Outcome.opponent
      ⟨w, o⟩ :: applyGuessesSpec board teamWords neutralWords (guessedBefore ++ [w]) ws

/-- Reward-table options a caller may set in a reward-config dict
(`src/configs/Configs.py` declares the same six names); a field left
`none` models an absent key. -/
structure RewardConfigDict where
  FORMAT_PENALTY : Option Int := none
  BOARD_WORD_USE_PENALTY : Option Int := none
  VALID_HINT_REWARD : Option Int := none
  CORRECT_GUESS_REWARD_WEIGHT : Option Int := none
  NEUTRAL_GUESS_PENALTY_WEIGHT : Option Int := none
  OPPONENT_GUESS_PENALTY_WEIGHT : Option Int := none
deriving Repr

/-- Weight table held by a constructed `RewardModule`. -/
structure RewardModule where
  FORMAT_PENALTY : Int
  BOARD_WORD_USE_PENALTY : Int
  VALID_HINT_REWARD : Int
  CORRECT_GUESS_REWARD_WEIGHT : Int
  NEUTRAL_GUESS_PENALTY_WEIGHT : Int
  OPPONENT_GUESS_PENALTY_WEIGHT : Int
deriving DecidableEq, Repr

/-- Translation of `RewardModule.__init__` (`src/Rewards.py`): only
`FORMAT_PENALTY` is read from the supplied config (with default `-10`
when the key or the whole config is missing); the remaining five weights
are assigned literal constants. -/
def RewardModule.init (reward_config : Option RewardConfigDict) : RewardModule :=
  { FORMAT_PENALTY :=
      match reward_config with
      | some cfg => cfg.FORMAT_PENALTY.getD (-10)
      | none => -10
    BOARD_WORD_USE_PENALTY := -8
    VALID_HINT_REWARD := 5
    CORRECT_GUESS_REWARD_WEIGHT := 5
    NEUTRAL_GUESS_PENALTY_WEIGHT := 2
    OPPONENT_GUESS_PENALTY_WEIGHT := 5 }

/-- Master half of a turn record as `reward_function` reads it:
`master_result.get("success")` and
`master_result.get("action", {}).get("hint_word")`. -/
structure MasterResultDict where
  success : Option Bool := none
  hint_word : Option String := none
deriving DecidableEq, Repr

/-- Inner `player_result["result"]` dict; `.get("results", [])`. -/
structure ResultDict where
  results : List GuessResult := []
deriving DecidableEq, Repr

/-- Player half of a turn record as `reward_function` reads it. -/
structure PlayerResultDict where
  success : Option Bool := none
  result : Option ResultDict := none
deriving DecidableEq, Repr

/-- Evaluation of `player_result.get("result", {}).get("results", [])`. -/
def PlayerResultDict.getResults (p : PlayerResultDict) : List GuessResult :=
  (p.result.getD {}).results

/-- Fields of the per-step log event that `reward_function` reads.
`board` and `guessed_words` come from
`event["environment_state"] = Environment.get_game_state()`, which
reports the full (never-shrinking) board. -/
structure LogEvent where
  board : List String
  guessed_words : List String
  master_result : MasterResultDict := {}
  player_result : PlayerResultDict := {}
deriving DecidableEq, Repr

/-- Python `hint_word in set(board)` where a missing key gives `None`
(never a board member). -/
def hintWordOnBoard (hint_word : Option String) (board : List String) : Bool :=
  match hint_word with
  | some w => decide (w ∈ board)
  | none => false

/-- Translation of `RewardModule.reward_function`: the master reward from
the success flag and the full-board membership of the hint word, and the
player reward as a fold over the per-word outcome entries. -/
def RewardModule.reward_function (rm : RewardModule) (event : LogEvent) : Int × Int :=
  let master_reward : Int :=
    if event.master_result.success ≠ some true then rm.FORMAT_PENALTY
    else if hintWordOnBoard event.master_result.hint_word event.board then
      rm.BOARD_WORD_USE_PENALTY
    else rm.VALID_HINT_REWARD
  let player_reward : Int :=
    if event.player_result.success ≠ some true then rm.FORMAT_PENALTY
    else
      event.player_result.getResults.foldl
        (fun acc r =>
          match r.result with
          | Outcome.already_guessed => acc - 12
          | Outcome.correct => acc + rm.CORRECT_GUESS_REWARD_WEIGHT
          | Outcome.neutral => acc - rm.NEUTRAL_GUESS_PENALTY_WEIGHT
          | Outcome.opponent => acc - rm.OPPONENT_GUESS_PENALTY_WEIGHT
          | Outcome.invalid => acc)
        0
  (master_reward, player_reward)

/-- Per-outcome contribution of one guess entry to the player reward, for
stating the guesser-reward sum. -/
def RewardModule.outcomeWeight (rm : RewardModule) : Outcome → Int
  | Outcome.already_guessed => -12
  | Outcome.correct => rm.CORRECT_GUESS_REWARD_WEIGHT
  | Outcome.neutral => -rm.NEUTRAL_GUESS_PENALTY_WEIGHT
  | Outcome.opponent => -rm.OPPONENT_GUESS_PENALTY_WEIGHT
  | Outcome.invalid => 0

/-! Action codec (`OllamaOrchestrator._parse_master_response` and
`_parse_player_response`).  The Python regular expressions are embedded
as executable matchers with the same search semantics: leftmost match,
greedy repetition with backtracking where the pattern needs it,
case-insensitive tag matching, and `.` spanning newlines. -/

/-- Double-quote character. -/
def dquoteChar : Char := Char.ofNat 34

/-- Single-quote character. -/
def squoteChar : Char := Char.ofNat 39

/-- Opening curly brace. -/
def lbraceChar : Char := Char.ofNat 123

/-- Closing curly brace. -/
def rbraceChar : Char := Char.ofNat 125

/-- Backslash character. -/
def backslashChar : Char := Char.ofNat 92

/-- Python regex `\s` (ASCII range, which covers the texts the claims
quantify over). -/
def isSpacePy (c : Char) : Bool :=
  c == ' ' || c == Char.ofNat 9 || c == Char.ofNat 10 || c == Char.ofNat 13 ||
    c == Char.ofNat 11 || c == Char.ofNat 12

/-- Character class `[\w-]` of the hint pattern (ASCII word characters
and the hyphen). -/
def isWordDash (c : Char) : Bool :=
  c.isAlphanum || c == '_' || c == '-'

/-- Natural number denoted by a digit run, as Python `int` reads it. -/
def digitsToNat (ds : List Char) : Nat :=
  ds.foldl (fun n c => n * 10 + (c.toNat - 48)) 0

/-- Case-sensitive "starts with" on character lists. -/
def startsWithChars : List Char → List Char → Bool
  | _, [] => true
  | [], _ :: _ => false
  | c :: cs, p :: ps => c == p && startsWithChars cs ps

/-- Case-sensitive substring test. -/
def containsChars : List Char → List Char → Bool
  | [], pat => pat.isEmpty
  | c :: cs, pat => startsWithChars (c :: cs) pat || containsChars cs pat

/-- Case-insensitive "starts with"; `pat` is given in lowercase. -/
def ciStartsWith : List Char → List Char → Bool
  | _, [] => true
  | [], _ :: _ => false
  | c :: cs, p :: ps => c.toLower == p && ciStartsWith cs ps

/-- Split at the first case-insensitive occurrence of `pat`, returning
the text before it and the text after it. -/
def ciSplitAt (pat : List Char) : List Char → Option (List Char × List Char)
  | [] => if pat.isEmpty then some ([], []) else none
  | c :: cs =>
    if ciStartsWith (c :: cs) pat then some ([], (c :: cs).drop pat.length)
    else (ciSplitAt pat cs).map (fun p => (c :: p.1, p.2))

/-- Search of `re.search(r'<RESULT>(.*?)</RESULT>', response,
re.DOTALL | re.IGNORECASE)`: the lazy group between the first opening
tag and the first closing tag after it, if both occur. -/
def resultBlockContent (s : List Char) : Option (List Char) :=
  match ciSplitAt (String.toList "<result>") s with
  | none => none
  | some p =>
    match ciSplitAt (String.toList "</result>") p.2 with
    | none => none
    | some q => some q.1

/-- Tail `["\']?\s*NUMBER:\s*(\d+)` of the hint pattern after the
captured word; the optional quote and the whitespace runs are
deterministic here because a quote is neither whitespace nor part of
`NUMBER:`. -/
def matchHintTail (s : List Char) : Option Nat :=
  let s1 := match s with
    | c :: cs => if c == dquoteChar || c == squoteChar then cs else c :: cs
    | [] => ([] : List Char)
  let s2 := s1.dropWhile isSpacePy
  if ciStartsWith s2 (String.toList "number:") then
    let s3 := (s2.drop 7).dropWhile isSpacePy
    let ds := s3.takeWhile Char.isDigit
    if ds.isEmpty then none else some (digitsToNat ds)
  else none

/-- Backtracking over the greedy group `([\w-]+)`: `revGroup` is the
reversed candidate group (tried longest first) and `tail` the text after
it; shrinking the group pushes its last character back onto the tail. -/
def tryHintGroup : List Char → List Char → Option (String × Nat)
  | [], _ => none
  | c :: rg, tail =>
    match matchHintTail tail with
    | some n => some (String.mk ((c :: rg).reverse), n)
    | none => tryHintGroup rg (c :: tail)

/-- Attempt of the full hint pattern anchored at the head of `s`. -/
def matchHintAt (s : List Char) : Option (String × Nat) :=
  if ciStartsWith s (String.toList "hint:") then
    let afterTag := (s.drop 5).dropWhile isSpacePy
    let afterQuote := match afterTag with
      | c :: cs => if c == dquoteChar || c == squoteChar then cs else c :: cs
      | [] => ([] : List Char)
    let run := afterQuote.takeWhile isWordDash
    tryHintGroup run.reverse (afterQuote.drop run.length)
  else none

/-- Search of `re.search(r'HINT:\s*["\']?([\w-]+)["\']?\s*NUMBER:\s*(\d+)',
result_text, re.IGNORECASE)`: leftmost start position wins. -/
def searchHint : List Char → Option (String × Nat)
  | [] => none
  | c :: cs =>
    match matchHintAt (c :: cs) with
    | some r => some r
    | none => searchHint cs

/-- Search of `re.search(r'\{[^{}]*"guesses"[^{}]*\}', result_text,
re.DOTALL)`: a match starts at a `{` whose following brace-free span
contains the literal `"guesses"` and is closed by `}`; the whole matched
group is returned. -/
def findGuessesJson : List Char → Option (List Char)
  | [] => none
  | c :: cs =>
    if c == lbraceChar then
      let span := cs.takeWhile (fun d => d != lbraceChar && d != rbraceChar)
      match cs.drop span.length with
      | d :: _ =>
        if d == rbraceChar && containsChars span (String.toList ("\"guesses\"")) then
          some (lbraceChar :: (span ++ [rbraceChar]))
        else findGuessesJson cs
      | [] => findGuessesJson cs
    else findGuessesJson cs

/-- JSON values as `json.loads` produces them.  Numbers are kept as their
literal text: no claim inspects a numeric value, and this avoids
modelling floating point. -/
inductive Json where
  | null
  | bool (b : Bool)
  | numLit (lit : String)
  | str (s : String)
  | arr (elems : List Json)
  | obj (members : List (String × Json))

/-- Hexadecimal digit value. -/
def hexVal (c : Char) : Option Nat :=
  if c.isDigit then some (c.toNat - 48)
  else if 'a' ≤ c && c ≤ 'f' then some (c.toNat - 87)
  else if 'A' ≤ c && c ≤ 'F' then some (c.toNat - 70)
  else none

/-- JSON insignificant whitespace. -/
def skipJsonWs (s : List Char) : List Char :=
  s.dropWhile (fun c => c == ' ' || c == Char.ofNat 9 || c == Char.ofNat 10 || c == Char.ofNat 13)

/-- Body of a JSON string after the opening quote: returns the decoded
characters and the rest after the closing quote. -/
def parseJsonStringBody : Nat → List Char → Option (List Char × List Char)
  | 0, _ => none
  | _, [] => none
  | fuel + 1, c :: cs =>
    if c == dquoteChar then some ([], cs)
    else if c == backslashChar then
      match cs with
      | [] => none
      | e :: cs2 =>
        if e == dquoteChar || e == backslashChar || e == '/' then
          (parseJsonStringBody fuel cs2).map (fun p => (e :: p.1, p.2))
        else if e == 'n' then
          (parseJsonStringBody fuel cs2).map (fun p => (Char.ofNat 10 :: p.1, p.2))
        else if e == 't' then
          (parseJsonStringBody fuel cs2).map (fun p => (Char.ofNat 9 :: p.1, p.2))
        else if e == 'r' then
          (parseJsonStringBody fuel cs2).map (fun p => (Char.ofNat 13 :: p.1, p.2))
        else if e == 'b' then
          (parseJsonStringBody fuel cs2).map (fun p => (Char.ofNat 8 :: p.1, p.2))
        else if e == 'f' then
          (parseJsonStringBody fuel cs2).map (fun p => (Char.ofNat 12 :: p.1, p.2))
        else if e == 'u' then
          match cs2 with
          | h1 :: h2 :: h3 :: h4 :: cs3 =>
            match hexVal h1, hexVal h2, hexVal h3, hexVal h4 with
            | some a, some b, some c3, some d =>
              (parseJsonStringBody fuel cs3).map
                (fun p => (Char.ofNat (((a * 16 + b) * 16 + c3) * 16 + d) :: p.1, p.2))
            | _, _, _, _ => none
          | _ => none
        else none
    else (parseJsonStringBody fuel cs).map (fun p => (c :: p.1, p.2))

/-- Literal text of a JSON number (optional sign, integer part, optional
fraction and exponent); leading-zero validation is not modelled, which
is irrelevant to the claims. -/
def parseJsonNumber (s : List Char) : Option (String × List Char) :=
  let withDigits := fun (pre : List Char) (t : List Char) =>
    let ds := t.takeWhile Char.isDigit
    if ds.isEmpty then none else some (pre ++ ds, t.drop ds.length)
  let core := match s with
    | c :: cs => if c == '-' then withDigits [c] cs else withDigits [] s
    | [] => none
  match core with
  | none => none
  | some p =>
    let afterFrac := match p.2 with
      | c :: cs =>
        if c == '.' then (withDigits (p.1 ++ [c]) cs).getD (p.1, p.2)
        else (p.1, p.2)
      | [] => (p.1, p.2)
    let afterExp := match afterFrac.2 with
      | c :: cs =>
        if c == 'e' || c == 'E' then
          match cs with
          | d :: ds =>
            if d == '+' || d == '-' then
              (withDigits (afterFrac.1 ++ [c, d]) ds).getD afterFrac
            else (withDigits (afterFrac.1 ++ [c]) cs).getD afterFrac
          | [] => afterFrac
        else afterFrac
      | [] => afterFrac
    some (String.mk afterExp.1, afterExp.2)

mutual

/-- Recursive-descent JSON value (after leading whitespace). -/
def parseJsonValue : Nat → List Char → Option (Json × List Char)
  | 0, _ => none
  | fuel + 1, s =>
    match s with
    | [] => none
    | c :: cs =>
      if c == dquoteChar then
        (parseJsonStringBody (cs.length + 1) cs).map
          (fun p => (Json.str (String.mk p.1), p.2))
      else if c == lbraceChar then
        match skipJsonWs cs with
        | d :: ds =>
          if d == rbraceChar then some (Json.obj [], ds)
          else parseJsonMembers fuel (d :: ds)
        | [] => none
      else if c == '[' then
        match skipJsonWs cs with
        | d :: ds =>
          if d == ']' then some (Json.arr [], ds)
          else parseJsonItems fuel (d :: ds)
        | [] => none
      else if startsWithChars s (String.toList "true") then
        some (Json.bool true, s.drop 4)
      else if startsWithChars s (String.toList "false") then
        some (Json.bool false, s.drop 5)
      else if startsWithChars s (String.toList "null") then
        some (Json.null, s.drop 4)
      else
        (parseJsonNumber s).map (fun p => (Json.numLit p.1, p.2))

/-- Members of a JSON object, positioned at the first key. -/
def parseJsonMembers : Nat → List Char → Option (Json × List Char)
  | 0, _ => none
  | fuel + 1, s =>
    match s with
    | c :: cs =>
      if c == dquoteChar then
        match parseJsonStringBody (cs.length + 1) cs with
        | none => none
        | some key =>
          match skipJsonWs key.2 with
          | colon :: rest =>
            if colon == ':' then
              match parseJsonValue fuel (skipJsonWs rest) with
              | none => none
              | some v =>
                match skipJsonWs v.2 with
                | sep :: rest2 =>
                  if sep == rbraceChar then
                    some (Json.obj [(String.mk key.1, v.1)], rest2)
                  else if sep == ',' then
                    match parseJsonMembers fuel (skipJsonWs rest2) with
                    | some (Json.obj ms, rest3) =>
                      some (Json.obj ((String.mk key.1, v.1) :: ms), rest3)
                    | _ => none
                  else none
                | [] => none
            else none
          | [] => none
      else none
    | [] => none

/-- Items of a JSON array, positioned at the first element. -/
def parseJsonItems : Nat → List Char → Option (Json × List Char)
  | 0, _ => none
  | fuel + 1, s =>
    match parseJsonValue fuel s with
    | none => none
    | some v =>
      match skipJsonWs v.2 with
      | sep :: rest =>
        if sep == ']' then some (Json.arr [v.1], rest)
        else if sep == ',' then
          match parseJsonItems fuel (skipJsonWs rest) with
          | some (Json.arr vs, rest2) => some (Json.arr (v.1 :: vs), rest2)
          | _ => none
        else none
      | [] => none

end

/-- Model of `json.loads`: one value surrounded by insignificant
whitespace, failure (`Option.none`) standing for a raised
`JSONDecodeError`. -/
def jsonLoads (s : String) : Option Json :=
  match parseJsonValue (8 * (s.data.length + 1)) (skipJsonWs s.data) with
  | some p => if (skipJsonWs p.2).isEmpty then some p.1 else none
  | none => none

/-- The dataclass `MasterActionMessage`. -/
structure MasterActionMessage where
  hint_word : String
  hint_number : Nat
deriving DecidableEq, Repr

/-- The dataclass `PlayerActionMessage`; `guesses` holds whatever JSON
value `data.get("guesses", [])` produced (the source does not validate
its shape). -/
structure PlayerActionMessage where
  guesses : Json

/-- Python `data.get("guesses", [])` with an `AttributeError` (caught by
the caller) when `data` is not a dict; on a dict, the last binding of a
duplicated key wins, as in `json.loads`. -/
def jsonGetGuesses : Json → Option Json
  | Json.obj kvs =>
    some (match kvs.reverse.find? (fun kv => kv.1 == "guesses") with
          | some kv => kv.2
          | none => Json.arr [])
  | _ => none

/-- Translation of `_parse_master_response` (identical in the Ollama and
OpenAI orchestrators): restrict to the result block when present, then
search the hint pattern; any failure yields `none` rather than an
exception. -/
def parse_master_response (response : String) : Option MasterActionMessage :=
  let result_text := (resultBlockContent response.data).getD response.data
  (searchHint result_text).map (fun p => { hint_word := p.1, hint_number := p.2 })

/-- Translation of `_parse_player_response`: restrict to the result block
when present, search for the first brace-delimited `"guesses"` object and
load it; when no such object is found, fall back to loading the whole
response as JSON.  A load failure on the matched object raises inside the
`try` and is caught as `none` (the fallback is not attempted then). -/
def parse_player_response (response : String) : Option PlayerActionMessage :=
  let result_text := (resultBlockContent response.data).getD response.data
  match findGuessesJson result_text with
  | some group =>
    match jsonLoads (String.mk group) with
    | some data => (jsonGetGuesses data).map (fun g => { guesses := g })
    | none => none
  | none =>
    match jsonLoads response with
    | some data => (jsonGetGuesses data).map (fun g => { guesses := g })
    | none => none

/-- The dataclass `MasterStateMessage` (`src/messages/Message.py`): four
fields, none with a default, so its constructor requires all four. -/
structure MasterStateMessage where
  team_words : List String
  opponent_words : List String
  neutral_words : List String
  guessed_words_log : List GuessResult
deriving Repr

/-- Translation of `OllamaOrchestrator.get_master_state`.  The source
computes team words, opponent words and neutral words from the
environment state and then evaluates
`MasterStateMessage(team_words=…, opponent_words=…, neutral_words=…)`,
omitting the required `guessed_words_log` field of the dataclass: the
constructor raises `TypeError` on every call, so no message is ever
returned. -/
def OllamaOrchestrator.get_master_state (env : Environment) :
    Except String MasterStateMessage :=
  let _team_words := lookupD env.word_sets 1 []
  let _opponent_words : List String := []
  let _neutral_words :=
    env.board.filter (fun w => env.word_sets.all (fun p => decide (w ∉ p.2)))
  Except.error
    "TypeError: MasterStateMessage.__init__() missing 1 required positional argument: guessed_words_log"

/-- Claim-relevant fields of the turn record built by `_finalize_step`. -/
structure StepRecord where
  success : Bool
  error : String
deriving DecidableEq, Repr

/-- Translation of the control flow of `OllamaOrchestrator.step` around
its `try` block: `m_state = self.get_master_state()` (and the prompt
formatting) execute *before* the `try`, so an exception raised there
propagates to the caller.  Everything from the `try` onwards — model
queries, decoding, hint recording, the player phase and
`_finalize_step` — is abstracted as `rest`, since control reaches it
only if the master state message was built. -/
def OllamaOrchestrator.step
    (rest : MasterStateMessage → Except String (Environment × StepRecord))
    (env : Environment) : Except String (Environment × StepRecord) :=
  match OllamaOrchestrator.get_master_state env with
  | Except.error e => Except.error e
  | Except.ok m_state => rest m_state

/-- Translation of the loop of `OllamaOrchestrator.run_episode`, with the
turn body abstracted as the oracle `stepF` from the current environment
and step count to the updated environment and the turn record's
`success` flag (`self.step()` increments `step_count` by one; the loop
reads only the record's success entry).  The result is the episode's
`success` flag paired with the final `total_steps`. -/
def OllamaOrchestrator.run_episode (stepF : Environment → Nat → Environment × Bool)
    (env : Environment) (step_count limit : Nat) : Bool × Nat :=
  if h : env.check_win = true ∨ limit ≤ step_count then (true, step_count)
  else
    let s := stepF env step_count
    if s.2 then OllamaOrchestrator.run_episode stepF s.1 (step_count + 1) limit
    else (false, step_count + 1)
termination_by limit - step_count
decreasing_by
  simp only [not_or, not_le] at h
  omega

/-! Consensus protocol (`src/core/CrossTalk.py`).  The langgraph task
graph built by `CrossTalkModule.__init__` is barrier-synchronized
(every round-1 node feeds `sync_1`, which feeds every round-2 node,
which all feed the judge) and its responses are keyed by stable model
index, so its observable behaviour is the sequential three-phase
execution embedded below.  An agent is a deterministic stateful oracle:
its behaviour maps the current call count and the prompt to a response,
`none` standing for a raised exception (which langgraph propagates and
the orchestrator boundary catches). -/

/-- External guesser agent: `models/BenchmarkAgent.py` interface plus a
call counter (the tests count calls on their mocks). -/
structure BenchmarkAgent where
  behavior : Nat → String → Option (PlayerActionMessage × String)
  calls : Nat := 0

/-- One call of `model.generate_player_action(prompt)`. -/
def BenchmarkAgent.generate_player_action (a : BenchmarkAgent) (prompt : String) :
    Option ((PlayerActionMessage × String) × BenchmarkAgent) :=
  (a.behavior a.calls prompt).map (fun r => (r, { a with calls := a.calls + 1 }))

/-- Modelled from the spec: `prompts.reasoning_prompts` is imported by
`core/CrossTalk.py` but is missing from the source tree.  Per §4.5 the
phase-2 prompt is built from the hint, the guesser's own phase-1 raw
text and the teammate-labelled raw texts of the other guessers.  The
claims depend only on which agent is called how often, never on prompt
contents. -/
def format_cross_pollination_prompt (hint previous_thought teammate_thoughts : String) :
    String :=
  "HINT: " ++ hint ++ "\nYOUR PREVIOUS THOUGHT:\n" ++ previous_thought ++
    "\nTEAMMATE THOUGHTS:\n" ++ teammate_thoughts

/-- Modelled from the spec: the phase-3 judge prompt is built from the
hint and all phase-2 proposals concatenated (§4.5). -/
def format_judge_prompt (hint team_proposals : String) : String :=
  "HINT: " ++ hint ++ "\nTEAM PROPOSALS:\n" ++ team_proposals

/-- Concatenation `"\n\n".join(others_thoughts)` of
`create_cross_pollination_node`, skipping the agent's own index. -/
def teammateThoughts (raws : List String) (model_idx : Nat) : String :=
  String.intercalate "\n\n"
    ((raws.enum.filter (fun p => p.1 ≠ model_idx)).map
      (fun p => "Teammate " ++ toString (p.1 + 1) ++ ":\n" ++ p.2))

/-- Concatenation `"\n\n---\n\n".join(proposals)` of `create_judge_node`. -/
def judgeProposals (raws : List String) : String :=
  String.intercalate "\n\n---\n\n"
    (raws.enum.map (fun p => "Proposal " ++ toString (p.1 + 1) ++ ":\n" ++ p.2))

/-- Round 1 (`create_independent_node` for every model): each agent is
called once with the same initial prompt. -/
def crossTalkRound1 (initial_prompt : String) :
    List BenchmarkAgent → Option (List (PlayerActionMessage × String) × List BenchmarkAgent)
  | [] => some ([], [])
  | m :: ms =>
    match m.generate_player_action initial_prompt with
    | none => none
    | some r =>
      match crossTalkRound1 initial_prompt ms with
      | none => none
      | some rest => some (r.1 :: rest.1, r.2 :: rest.2)

/-- Round 2 (`create_cross_pollination_node` for every model): each agent
is called once with its cross-pollination prompt built from the round-1
raw texts. -/
def crossTalkRound2 (r1raws : List String) (hint_text : String) :
    List BenchmarkAgent → Nat → Option (List (PlayerActionMessage × String) × List BenchmarkAgent)
  | [], _ => some ([], [])
  | m :: ms, idx =>
    let prompt := format_cross_pollination_prompt hint_text (r1raws.getD idx "")
      (teammateThoughts r1raws idx)
    match m.generate_player_action prompt with
    | none => none
    | some r =>
      match crossTalkRound2 r1raws hint_text ms (idx + 1) with
      | none => none
      | some rest => some (r.1 :: rest.1, r.2 :: rest.2)

/-- Translation of `CrossTalkModule` graph execution (`execute` on the
compiled workflow): round 1, barrier, round 2, barrier, then the judge —
the *last* model of the team's configured list (`player_models[-1]`,
the same shared agent object, hence the last element of the round-2
updated list) — produces the team's final action.  Returns the final
action, the judge's raw text and the updated agents; `none` models a
raised exception (agent failure, or indexing an empty model list). -/
def CrossTalkModule.execute (player_models : List BenchmarkAgent)
    (initial_prompt hint_text : String) :
    Option (PlayerActionMessage × String × List BenchmarkAgent) :=
  match crossTalkRound1 initial_prompt player_models with
  | none => none
  | some r1 =>
    let r1raws := r1.1.map Prod.snd
    match crossTalkRound2 r1raws hint_text r1.2 0 with
    | none => none
    | some r2 =>
      let r2raws := r2.1.map Prod.snd
      match r2.2.getLast? with
      | none => none
      | some judge =>
        let prompt := format_judge_prompt hint_text (judgeProposals r2raws)
        match judge.generate_player_action prompt with
        | none => none
        | some fr => some (fr.1.1, fr.1.2, r2.2.dropLast ++ [fr.2])

/-! Lemmas about guess resolution. -/

/-- Outcomes under which `handle_player_action` commits the word to the
guessed-words sequence and the per-team log. -/
def persists (g : GuessResult) : Bool :=
  g.result != Outcome.already_guessed && g.result != Outcome.invalid

theorem updateEntry_comp {α : Type} (m : List (Nat × α)) (k : Nat) (f g : α → α) :
    updateEntry (updateEntry m k f) k g = updateEntry m k (fun a => g (f a)) := by
  induction m with
  | nil => rfl
  | cons p rest ih =>
    obtain ⟨a, b⟩ := p
    simp only [updateEntry, List.map_cons] at *
    by_cases h : a = k <;> simp [h, ih]

theorem updateEntry_id {α : Type} (m : List (Nat × α)) (k : Nat) :
    updateEntry m k (fun a => a) = m := by
  induction m with
  | nil => rfl
  | cons p rest ih =>
    obtain ⟨a, b⟩ := p
    simp only [updateEntry, List.map_cons] at *
    by_cases h : a = k <;> simp [h, ih]

/-- The state components `handle_player_action` never touches. -/
theorem applyGuessList_fixed (env : Environment) (t : Nat) (gs : List String) :
    (env.applyGuessList t gs).1.teams = env.teams
    ∧ (env.applyGuessList t gs).1.max_words = env.max_words
    ∧ (env.applyGuessList t gs).1.board = env.board
    ∧ (env.applyGuessList t gs).1.word_sets = env.word_sets
    ∧ (env.applyGuessList t gs).1.neutral_words = env.neutral_words := by
  induction gs generalizing env with
  | nil => exact ⟨rfl, rfl, rfl, rfl, rfl⟩
  | cons g rest ih =>
    simp only [Environment.applyGuessList]
    by_cases h1 : g ∈ env.guessed_words
    · simpa [h1] using ih env
    · by_cases h2 : g ∈ env.board
      · simp only [h1, h2, if_pos, if_neg, not_true, not_false_iff, ite_true, ite_false]
        simpa [h1, h2] using
          ih { env with
                guessed_words := env.guessed_words ++ [g]
                guessed_words_log :=
                  updateEntry env.guessed_words_log t (fun l =>
                    l ++ [(⟨g, if g ∈ lookupD env.word_sets t [] then Outcome.correct
                              else if g ∈ env.neutral_words then Outcome.neutral
                              else Outcome.opponent⟩ : GuessResult)]) }
      · simpa [h1, h2] using ih env

/-- Effect of one resolution pass on the guessed-words sequence: exactly
the words whose outcome persists are appended, in order. -/
theorem applyGuessList_guessed_words (env : Environment) (t : Nat) (gs : List String) :
    (env.applyGuessList t gs).1.guessed_words =
      env.guessed_words ++ ((env.applyGuessList t gs).2.1.filter persists).map GuessResult.word := by
  induction gs generalizing env with
  | nil => simp [Environment.applyGuessList]
  | cons g rest ih =>
    simp only [Environment.applyGuessList]
    by_cases h1 : g ∈ env.guessed_words
    · simpa [h1, persists] using ih env
    · by_cases h2 : g ∈ env.board
      · have hres : (if g ∈ lookupD env.word_sets t [] then Outcome.correct
            else if g ∈ env.neutral_words then Outcome.neutral
            else Outcome.opponent) ≠ Outcome.already_guessed ∧
            (if g ∈ lookupD env.word_sets t [] then Outcome.correct
            else if g ∈ env.neutral_words then Outcome.neutral
            else Outcome.opponent) ≠ Outcome.invalid := by
          constructor <;> split_ifs <;> simp
        simp only [h1, h2, if_neg, if_pos, not_true, not_false_iff, ite_true, ite_false]
        simp [h1, h2, persists, hres.1, hres.2, ih, List.append_assoc]
      · simpa [h1, h2, persists] using ih env

/-- Effect of one resolution pass on the per-team logs: the persisting
entries are appended to the acting team's log entry (other entries are
untouched). -/
theorem applyGuessList_log (env : Environment) (t : Nat) (gs : List String) :
    (env.applyGuessList t gs).1.guessed_words_log =
      updateEntry env.guessed_words_log t
        (fun l => l ++ (env.applyGuessList t gs).2.1.filter persists) := by
  induction gs generalizing env with
  | nil => simp [Environment.applyGuessList, updateEntry_id]
  | cons g rest ih =>
    simp only [Environment.applyGuessList]
    by_cases h1 : g ∈ env.guessed_words
    · simpa [h1, persists] using ih env
    · by_cases h2 : g ∈ env.board
      · have hres : persists ⟨g, if g ∈ lookupD env.word_sets t [] then Outcome.correct
            else if g ∈ env.neutral_words then Outcome.neutral
            else Outcome.opponent⟩ = true := by
          simp only [persists]
          split_ifs <;> simp
        simp only [h1, h2, if_neg, if_pos, not_true, not_false_iff, ite_true, ite_false]
        simp only [ih, updateEntry_comp, hres, List.filter_cons_of_pos, List.append_assoc,
          List.singleton_append]
      · simpa [h1, h2, persists] using ih env

/-- The outcome list reports the guessed words themselves, in order. -/
theorem applyGuessList_words (env : Environment) (t : Nat) (gs : List String) :
    (env.applyGuessList t gs).2.1.map GuessResult.word = gs := by
  induction gs generalizing env with
  | nil => rfl
  | cons g rest ih =>
    simp only [Environment.applyGuessList]
    by_cases h1 : g ∈ env.guessed_words
    · simpa [h1] using ih env
    · by_cases h2 : g ∈ env.board
      · simp only [h1, h2, if_neg, if_pos, not_true, not_false_iff, ite_true, ite_false]
        simp [ih]
      · simpa [h1, h2] using ih env

/-- The incrementally maintained `correct_count` equals the number of
`correct` outcomes in the result list. -/
theorem applyGuessList_count (env : Environment) (t : Nat) (gs : List String) :
    (env.applyGuessList t gs).2.2 =
      (env.applyGuessList t gs).2.1.countP (fun g => g.result == Outcome.correct) := by
  induction gs generalizing env with
  | nil => rfl
  | cons g rest ih =>
    simp only [Environment.applyGuessList]
    by_cases h1 : g ∈ env.guessed_words
    · simpa [h1, List.countP_cons] using ih env
    · by_cases h2 : g ∈ env.board
      · simp only [h1, h2, if_neg, if_pos, not_true, not_false_iff, ite_true, ite_false]
        by_cases hc : g ∈ lookupD env.word_sets t []
        · simp [hc, List.countP_cons, ih, Nat.add_comm]
        · by_cases hn : g ∈ env.neutral_words
          · simp [hc, hn, List.countP_cons, ih]
          · simp [hc, hn, List.countP_cons, ih]
      · simpa [h1, h2, List.countP_cons] using ih env

/-- The environment's resolution loop computes exactly the specification
recursion `applyGuessesSpec` on the environment's components. -/
theorem applyGuessList_spec (env : Environment) (t : Nat) (gs : List String) :
    (env.applyGuessList t gs).2.1 =
      applyGuessesSpec env.board (lookupD env.word_sets t []) env.neutral_words
        env.guessed_words gs := by
  induction gs generalizing env with
  | nil => rfl
  | cons g rest ih =>
    simp only [Environment.applyGuessList, applyGuessesSpec]
    by_cases h1 : g ∈ env.guessed_words
    · simpa [h1] using ih env
    · by_cases h2 : g ∈ env.board
      · simp only [h1, h2, if_neg, if_pos, not_true, not_false_iff, ite_true, ite_false]
        simp [ih]
      · simpa [h1, h2] using ih env

/-- A word already recorded as guessed resolves to `already_guessed` at
every position where it occurs in a later guess list. -/
theorem applyGuessList_already (env : Environment) (t : Nat) (gs : List String) (w : String)
    (hw : w ∈ env.guessed_words) :
    ∀ i, gs.get? i = some w →
      (env.applyGuessList t gs).2.1.get? i = some ⟨w, Outcome.already_guessed⟩ := by
  induction gs generalizing env with
  | nil => intro i h; simp at h
  | cons g rest ih =>
    intro i hi
    simp only [Environment.applyGuessList]
    by_cases h1 : g ∈ env.guessed_words
    · cases i with
      | zero =>
        simp only [List.get?] at hi
        cases hi
        simp [h1]
      | succ j =>
        simp only [List.get?] at hi
        simpa [h1] using ih env hw j hi
    · have hgw : g ≠ w := fun h => h1 (h ▸ hw)
      cases i with
      | zero =>
        simp only [List.get?] at hi
        cases hi
        exact absurd rfl hgw
      | succ j =>
        simp only [List.get?] at hi
        by_cases h2 : g ∈ env.board
        · simp only [h1, h2, if_neg, if_pos, not_true, not_false_iff, ite_true, ite_false]
          have hw1 : w ∈ env.guessed_words ++ [g] := List.mem_append_left _ hw
          simpa using ih _ hw1 j hi
        · simpa [h1, h2] using ih env hw j hi

/-- A persisting outcome leaves its word in the final guessed-words
sequence. -/
theorem applyGuessList_mem_guessed (env : Environment) (t : Nat) (gs : List String)
    (w : String) (o : Outcome)
    (hmem : (⟨w, o⟩ : GuessResult) ∈ (env.applyGuessList t gs).2.1)
    (h1 : o ≠ Outcome.already_guessed) (h2 : o ≠ Outcome.invalid) :
    w ∈ (env.applyGuessList t gs).1.guessed_words := by
  rw [applyGuessList_guessed_words]
  refine List.mem_append_right _ ?_
  refine List.mem_map.mpr ⟨⟨w, o⟩, ?_, rfl⟩
  exact List.mem_filter.mpr ⟨hmem, by simp [persists, h1, h2]⟩

/-- Reachability by repeated guess handling, used to state persistence
across later calls. -/
inductive Environment.Steps : Environment → Environment → Prop
  | refl (e : Environment) : Environment.Steps e e
  | tail (e e' : Environment) (guesses : List String) (team_id : Nat) :
      Environment.Steps e e' →
      Environment.Steps e (e'.handle_player_action guesses team_id).1

/-- Guessed words are never removed along any chain of player actions. -/
theorem Environment.Steps.guessed_subset {e e' : Environment}
    (h : Environment.Steps e e') : e.guessed_words ⊆ e'.guessed_words := by
  induction h with
  | refl => exact fun _ hx => hx
  | tail e' gs t _ ih =>
    intro w hw
    have : w ∈ e'.guessed_words := ih hw
    simp only [Environment.handle_player_action]
    rw [applyGuessList_guessed_words]
    exact List.mem_append_left _ this

/-- Membership in an updated association list, same key. -/
theorem mem_updateEntry_self {α : Type} {m : List (Nat × α)} {k : Nat} {l : α}
    (h : (k, l) ∈ m) (f : α → α) : (k, f l) ∈ updateEntry m k f := by
  refine List.mem_map.mpr ⟨(k, l), h, ?_⟩
  simp

/-- Membership in an updated association list, different key. -/
theorem mem_updateEntry_ne {α : Type} {m : List (Nat × α)} {k k' : Nat} {l' : α}
    (hne : k' ≠ k) (f : α → α) : (k', l') ∈ updateEntry m k f ↔ (k', l') ∈ m := by
  constructor
  · intro h
    obtain ⟨p, hp, heq⟩ := List.mem_map.mp h
    by_cases hk : p.1 = k
    · exfalso
      rw [if_pos hk] at heq
      exact hne ((congrArg Prod.fst heq).symm.trans hk)
    · rw [if_neg hk] at heq
      exact heq ▸ hp
  · intro h
    refine List.mem_map.mpr ⟨(k', l'), h, ?_⟩
    simp [hne]

/-- Concrete single-team environment used by the witnesses: board
`["a", "b"]`, team word set `{"a"}`, neutral `{"b"}`. -/
def envW : Environment :=
  { teams := 1
    max_words := 2
    board := ["a", "b"]
    word_sets := [(1, ["a"])]
    neutral_words := ["b"]
    guessed_words := []
    guessed_words_log := [(1, [])] }

/-- Claim C1: `handle_player_action` resolves each word in order by the
rule "already guessed ↦ `already_guessed`; off board ↦ `invalid`; else
`correct`/`neutral`/`opponent` by set membership, committing the word as
it is resolved so that a duplicate later in the same list is
`already_guessed`" (the recursion `applyGuessesSpec` stated from the
spec); `correct_count` counts the `correct` outcomes; and once a word is
resolved with an outcome other than `already_guessed`/`invalid`, every
occurrence of it in any later call resolves to `already_guessed`. -/
theorem claim_C1_handle_player_action (env : Environment) (team_id : Nat)
    (guesses : List String) :
    ((env.handle_player_action guesses team_id).2.results =
        applyGuessesSpec env.board (lookupD env.word_sets team_id []) env.neutral_words
          env.guessed_words guesses)
    ∧ ((env.handle_player_action guesses team_id).2.correct_count =
        (env.handle_player_action guesses team_id).2.results.countP
          (fun g => g.result == Outcome.correct))
    ∧ (∀ w o, (⟨w, o⟩ : GuessResult) ∈ (env.handle_player_action guesses team_id).2.results →
        o ≠ Outcome.already_guessed → o ≠ Outcome.invalid →
        ∀ env₂, Environment.Steps (env.handle_player_action guesses team_id).1 env₂ →
          ∀ (gs₂ : List String) (t₂ i : Nat), gs₂.get? i = some w →
            (env₂.handle_player_action gs₂ t₂).2.results.get? i =
              some ⟨w, Outcome.already_guessed⟩) := by
  refine ⟨applyGuessList_spec env team_id guesses, applyGuessList_count env team_id guesses, ?_⟩
  intro w o hmem h1 h2 env₂ hsteps gs₂ t₂ i hi
  have hw : w ∈ (env.applyGuessList team_id guesses).1.guessed_words :=
    applyGuessList_mem_guessed env team_id guesses w o hmem h1 h2
  have hw₂ : w ∈ env₂.guessed_words := hsteps.guessed_subset hw
  exact applyGuessList_already env₂ t₂ gs₂ w hw₂ i hi

/-- Witness for claim C1 at a concrete run: the scenario list
`["a", "x", "a", "b"]` resolves to
`[correct, invalid, already_guessed, neutral]` with `correct_count 1`,
and after `"a"` was resolved `correct`, a later call guessing `"a"`
resolves it to `already_guessed`. -/
theorem claim_C1_handle_player_action_witness :
    ((envW.handle_player_action ["a", "x", "a", "b"] 1).2.results =
        applyGuessesSpec envW.board (lookupD envW.word_sets 1 []) envW.neutral_words
          envW.guessed_words ["a", "x", "a", "b"])
    ∧ (envW.handle_player_action ["a", "x", "a", "b"] 1).2.results =
        [⟨"a", Outcome.correct⟩, ⟨"x", Outcome.invalid⟩, ⟨"a", Outcome.already_guessed⟩,
          ⟨"b", Outcome.neutral⟩]
    ∧ (envW.handle_player_action ["a", "x", "a", "b"] 1).2.correct_count = 1
    ∧ (((envW.handle_player_action ["a"] 1).1.handle_player_action ["a", "b"] 1).2.results).get? 0 =
        some ⟨"a", Outcome.already_guessed⟩ := by
  refine ⟨(claim_C1_handle_player_action envW 1 ["a", "x", "a", "b"]).1, by decide, by decide, ?_⟩
  exact (claim_C1_handle_player_action envW 1 ["a"]).2.2 "a" Outcome.correct (by decide)
    (by decide) (by decide) _ (Environment.Steps.refl _) ["a", "b"] 1 0 (by decide)

/-- Claim C10: a resolution pass appends to the global guessed-words
sequence and to the acting team's log exactly the occurrences resolved
`correct`/`neutral`/`opponent` (those resolved `invalid` or
`already_guessed` change nothing), other teams' logs are untouched, and
the board, the team word sets and the neutral words are never
modified. -/
theorem claim_C10_handle_player_action_effects (env : Environment) (t : Nat)
    (gs : List String) :
    ((env.handle_player_action gs t).1.board = env.board
      ∧ (env.handle_player_action gs t).1.word_sets = env.word_sets
      ∧ (env.handle_player_action gs t).1.neutral_words = env.neutral_words
      ∧ (env.handle_player_action gs t).1.teams = env.teams
      ∧ (env.handle_player_action gs t).1.max_words = env.max_words)
    ∧ (env.handle_player_action gs t).1.guessed_words =
        env.guessed_words ++
          (((env.handle_player_action gs t).2.results.filter persists).map GuessResult.word)
    ∧ (∀ l, (t, l) ∈ env.guessed_words_log →
        (t, l ++ (env.handle_player_action gs t).2.results.filter persists) ∈
          (env.handle_player_action gs t).1.guessed_words_log)
    ∧ (∀ t' l', t' ≠ t →
        ((t', l') ∈ (env.handle_player_action gs t).1.guessed_words_log ↔
          (t', l') ∈ env.guessed_words_log)) := by
  obtain ⟨hteams, hmax, hboard, hsets, hneut⟩ := applyGuessList_fixed env t gs
  refine ⟨⟨hboard, hsets, hneut, hteams, hmax⟩,
    applyGuessList_guessed_words env t gs, ?_, ?_⟩
  · intro l hl
    have := mem_updateEntry_self hl (fun l => l ++ (env.applyGuessList t gs).2.1.filter persists)
    simpa [Environment.handle_player_action, applyGuessList_log] using this
  · intro t' l' hne
    simp only [Environment.handle_player_action, applyGuessList_log]
    exact mem_updateEntry_ne hne _

/-- Witness for claim C10 at a concrete run: guessing
`["a", "x", "a", "b"]` appends `["a", "b"]` to the guessed words, logs
the two persisting entries for team 1, and leaves the board, word sets
and neutral words as they were. -/
theorem claim_C10_handle_player_action_effects_witness :
    (envW.handle_player_action ["a", "x", "a", "b"] 1).1.board = envW.board
    ∧ (envW.handle_player_action ["a", "x", "a", "b"] 1).1.guessed_words = ["a", "b"]
    ∧ (1, [(⟨"a", Outcome.correct⟩ : GuessResult), ⟨"b", Outcome.neutral⟩]) ∈
        (envW.handle_player_action ["a", "x", "a", "b"] 1).1.guessed_words_log := by
  refine ⟨(claim_C10_handle_player_action_effects envW 1 ["a", "x", "a", "b"]).1.1, by decide, ?_⟩
  have h := (claim_C10_handle_player_action_effects envW 1 ["a", "x", "a", "b"]).2.2.1
    [] (by decide)
  have heq : ([] : List GuessResult) ++
      (envW.handle_player_action ["a", "x", "a", "b"] 1).2.results.filter persists =
      [(⟨"a", Outcome.correct⟩ : GuessResult), ⟨"b", Outcome.neutral⟩] := by decide
  exact heq ▸ h

/-- Emptiness of the remaining-words comprehension means the word set is
contained in the guessed words. -/
theorem remainingWords_isEmpty (ws g : List String) :
    (remainingWords ws g).isEmpty = true ↔ ∀ w ∈ ws, w ∈ g := by
  simp [remainingWords, List.isEmpty_iff, List.filter_eq_nil_iff]

/-- On a key-sorted association list, `find?` returns an entry with the
least key among those satisfying the test. -/
theorem find?_min_key {α : Type} (l : List (Nat × α)) (p : Nat × α → Bool)
    (hpw : l.Pairwise (fun a b => a.1 < b.1)) (x : Nat × α) (hx : l.find? p = some x) :
    ∀ y ∈ l, p y = true → x.1 ≤ y.1 := by
  induction l with
  | nil => simp at hx
  | cons h tl ih =>
    rw [List.pairwise_cons] at hpw
    by_cases hp : p h
    · rw [List.find?_cons_of_pos _ hp] at hx
      cases hx
      intro y hy _
      rcases List.mem_cons.mp hy with hy | hy
      · exact hy ▸ le_rfl
      · exact le_of_lt (hpw.1 y hy)
    · rw [List.find?_cons_of_neg _ hp] at hx
      intro y hy hpy
      rcases List.mem_cons.mp hy with hy | hy
      · exact absurd ((hy ▸ hpy : p h = true)) hp
      · exact ih hpw.2 hx y hy hpy

/-- Concrete two-team environment used by the witnesses: both teams'
sets are fully guessed simultaneously. -/
def envW2 : Environment :=
  { teams := 2
    max_words := 2
    board := ["a", "b"]
    word_sets := [(1, ["a"]), (2, ["b"])]
    neutral_words := []
    guessed_words := ["a", "b"]
    guessed_words_log := [(1, []), (2, [])] }

/-- Claim C2: on a well-formed environment, `check_win` is true exactly
when some team's word set is contained in the guessed words; whenever at
least one team qualifies, `get_winner` reports the least qualifying team
id (teams are examined in ascending id order); and it reports the
sentinel `-1` when no team qualifies. -/
theorem claim_C2_check_win_get_winner (env : Environment) (hwf : env.wf) :
    (env.check_win = true ↔ ∃ p ∈ env.word_sets, ∀ w ∈ p.2, w ∈ env.guessed_words)
    ∧ (∀ (t : Nat) (ws : List String), (t, ws) ∈ env.word_sets →
        (∀ w ∈ ws, w ∈ env.guessed_words) →
        ∃ (tw : Nat) (wsw : List String), env.get_winner = (tw : Int)
          ∧ (tw, wsw) ∈ env.word_sets
          ∧ (∀ w ∈ wsw, w ∈ env.guessed_words)
          ∧ ∀ (t' : Nat) (ws' : List String), (t', ws') ∈ env.word_sets →
              (∀ w ∈ ws', w ∈ env.guessed_words) → tw ≤ t')
    ∧ ((¬ ∃ p ∈ env.word_sets, ∀ w ∈ p.2, w ∈ env.guessed_words) → env.get_winner = -1) := by
  by_cases ht : env.teams > 1
  · have hpw : env.word_sets.Pairwise (fun a b => a.1 < b.1) := by
      have hmap : (env.word_sets.map Prod.fst).Pairwise (· < ·) := by
        rw [hwf]
        exact List.pairwise_lt_range' 1 (max env.teams 1)
      exact List.pairwise_map.mp hmap
    refine ⟨?_, ?_, ?_⟩
    · simp only [Environment.check_win, if_pos ht, List.any_eq_true]
      constructor
      · rintro ⟨p, hp, he⟩
        exact ⟨p, hp, (remainingWords_isEmpty _ _).mp he⟩
      · rintro ⟨p, hp, hs⟩
        exact ⟨p, hp, (remainingWords_isEmpty _ _).mpr hs⟩
    · intro t ws hmem hsub
      have hsome : (env.word_sets.find?
          (fun p => (remainingWords p.2 env.guessed_words).isEmpty)).isSome := by
        rw [List.find?_isSome]
        exact ⟨(t, ws), hmem, (remainingWords_isEmpty _ _).mpr hsub⟩
      obtain ⟨x, hx⟩ := Option.isSome_iff_exists.mp hsome
      have hpx : (remainingWords x.2 env.guessed_words).isEmpty = true := by
        simpa using List.find?_some hx
      refine ⟨x.1, x.2, ?_, ?_, (remainingWords_isEmpty _ _).mp hpx, ?_⟩
      · simp only [Environment.get_winner, if_pos ht, hx]
      · exact List.mem_of_find?_eq_some hx
      · intro t' ws' hmem' hsub'
        exact find?_min_key env.word_sets _ hpw x hx (t', ws') hmem'
          ((remainingWords_isEmpty _ _).mpr hsub')
    · intro hnone
      simp only [Environment.get_winner, if_pos ht]
      cases hfind : env.word_sets.find?
          (fun p => (remainingWords p.2 env.guessed_words).isEmpty) with
      | none => rfl
      | some x =>
        have hpx : (remainingWords x.2 env.guessed_words).isEmpty = true := by
          simpa using List.find?_some hfind
        exact absurd ⟨x, List.mem_of_find?_eq_some hfind,
          (remainingWords_isEmpty _ _).mp hpx⟩ hnone
  · have hmax : max env.teams 1 = 1 := by omega
    rw [Environment.wf, hmax] at hwf
    have hr : List.range' 1 1 = [1] := rfl
    rw [hr] at hwf
    obtain ⟨ws, hsets⟩ : ∃ ws, env.word_sets = [(1, ws)] := by
      cases hws : env.word_sets with
      | nil => rw [hws] at hwf; simp at hwf
      | cons p rest =>
        cases rest with
        | nil =>
          rw [hws] at hwf
          simp only [List.map_cons, List.map_nil] at hwf
          obtain ⟨a, b⟩ := p
          exact ⟨b, by simp_all⟩
        | cons q rest2 => rw [hws] at hwf; simp at hwf
    have hlook : lookupD env.word_sets 1 [] = ws := by simp [hsets, lookupD]
    refine ⟨?_, ?_, ?_⟩
    · simp only [Environment.check_win, if_neg ht, hlook, remainingWords_isEmpty]
      constructor
      · intro hs
        exact ⟨(1, ws), by simp [hsets], hs⟩
      · rintro ⟨p, hp, hs⟩
        rw [hsets, List.mem_singleton] at hp
        rw [hp] at hs
        exact hs
    · intro t ws' hmem hsub
      rw [hsets, List.mem_singleton, Prod.mk.injEq] at hmem
      have hsubws : ∀ w ∈ ws, w ∈ env.guessed_words := by
        rw [← hmem.2]
        exact hsub
      refine ⟨1, ws, ?_, by simp [hsets], hsubws, ?_⟩
      · simp only [Environment.get_winner, if_neg ht, hlook]
        rw [if_pos ((remainingWords_isEmpty _ _).mpr hsubws)]
        rfl
      · intro t' aws hmem' _
        rw [hsets, List.mem_singleton, Prod.mk.injEq] at hmem'
        omega
    · intro hnone
      simp only [Environment.get_winner, if_neg ht, hlook]
      rw [if_neg]
      intro he
      exact hnone ⟨(1, ws), by simp [hsets], (remainingWords_isEmpty _ _).mp he⟩

/-- Witness for claim C2: in a two-team environment where both teams'
sets are simultaneously fully guessed, `check_win` is true and the
winner is team 1, the lower id. -/
theorem claim_C2_check_win_get_winner_witness :
    envW2.wf ∧ envW2.check_win = true ∧ envW2.get_winner = 1 := by
  have h := claim_C2_check_win_get_winner envW2 (by decide)
  refine ⟨by decide, ?_, ?_⟩
  · exact h.1.mpr ⟨(1, ["a"]), by decide, by decide⟩
  · obtain ⟨tw, wsw, hwin, hmem, _, hmin⟩ := h.2.1 1 ["a"] (by decide) (by decide)
    have h1 : tw ≤ 1 := hmin 1 ["a"] (by decide) (by decide)
    have : tw = 1 := by
      rcases (by simpa [envW2] using hmem : (tw, wsw) = (1, ["a"]) ∨ (tw, wsw) = (2, ["b"])) with
        hc | hc
      · exact congrArg Prod.fst hc
      · have : tw = 2 := congrArg Prod.fst hc
        omega
    rw [hwin, this]
    rfl

/-- Claim C3 (refuted — code bug): far from never propagating an
exception, `OllamaOrchestrator.step` raises on *every* call, whatever
the turn body would do: the master state message is constructed before
the `try` block, and its dataclass constructor always raises `TypeError`
because the required `guessed_words_log` field is not passed. -/
theorem claim_C3_step_always_raises
    (rest : MasterStateMessage → Except String (Environment × StepRecord))
    (env : Environment) :
    OllamaOrchestrator.step rest env =
      Except.error
        "TypeError: MasterStateMessage.__init__() missing 1 required positional argument: guessed_words_log" :=
  rfl

/-- Reward module built without a config, as the default constants. -/
def rmW : RewardModule := RewardModule.init none

/-- Turn event where the hint word equals a board word that has already
been guessed, and the guesser scored one `correct` and one `opponent`
word. -/
def eventW : LogEvent :=
  { board := ["gold", "mine"]
    guessed_words := ["gold"]
    master_result := { success := some true, hint_word := some "gold" }
    player_result :=
      { success := some true
        result := some { results := [⟨"gold", Outcome.correct⟩, ⟨"mine", Outcome.opponent⟩] } } }

/-- Turn event of a failed turn: both result dicts are empty. -/
def eventFailW : LogEvent :=
  { board := ["gold"]
    guessed_words := [] }

/-- Counterexample to claim C4 as stated: with a successful master
result whose hint word `"gold"` is a board word but *not* a current
(unguessed) board word, the hinter reward is `BOARD_WORD_USE_PENALTY`,
not the claimed `VALID_HINT_REWARD` — the code checks the full board
from `get_game_state()`, not the unguessed remainder. -/
theorem claim_C4_counterexample :
    eventW.master_result.success = some true
    ∧ hintWordOnBoard eventW.master_result.hint_word
        (remainingWords eventW.board eventW.guessed_words) = false
    ∧ (rmW.reward_function eventW).1 = rmW.BOARD_WORD_USE_PENALTY
    ∧ rmW.BOARD_WORD_USE_PENALTY ≠ rmW.VALID_HINT_REWARD := by
  refine ⟨rfl, rfl, rfl, by decide⟩

/-- Claim C4 as amended: the hinter reward is `FORMAT_PENALTY` when the
master result's success flag is not true; otherwise it is
`BOARD_WORD_USE_PENALTY` exactly when the hint word is one of the
*full* board's words (guessed or not), and `VALID_HINT_REWARD` exactly
otherwise. -/
theorem claim_C4_hinter_reward (cfg : Option RewardConfigDict) (event : LogEvent) :
    (event.master_result.success ≠ some true →
      ((RewardModule.init cfg).reward_function event).1 = (RewardModule.init cfg).FORMAT_PENALTY)
    ∧ (event.master_result.success = some true →
        (((RewardModule.init cfg).reward_function event).1 =
            (RewardModule.init cfg).BOARD_WORD_USE_PENALTY ↔
          hintWordOnBoard event.master_result.hint_word event.board = true)
        ∧ (((RewardModule.init cfg).reward_function event).1 =
            (RewardModule.init cfg).VALID_HINT_REWARD ↔
          hintWordOnBoard event.master_result.hint_word event.board = false)) := by
  have hbw : (RewardModule.init cfg).BOARD_WORD_USE_PENALTY = -8 := rfl
  have hvh : (RewardModule.init cfg).VALID_HINT_REWARD = 5 := rfl
  constructor
  · intro hfail
    simp [RewardModule.reward_function, hfail]
  · intro hsucc
    by_cases hb : hintWordOnBoard event.master_result.hint_word event.board = true
    · constructor
      · simp [RewardModule.reward_function, hsucc, hb]
      · simp [RewardModule.reward_function, hsucc, hb, hbw, hvh]
    · constructor
      · simp [RewardModule.reward_function, hsucc, hb, hbw, hvh]
      · simp [RewardModule.reward_function, hsucc, hb]

/-- Witness for the amended claim C4: the failed event scores the format
penalty, and the board-word hint scores the board-word penalty. -/
theorem claim_C4_hinter_reward_witness :
    eventFailW.master_result.success ≠ some true
    ∧ (rmW.reward_function eventFailW).1 = rmW.FORMAT_PENALTY
    ∧ eventW.master_result.success = some true
    ∧ (rmW.reward_function eventW).1 = rmW.BOARD_WORD_USE_PENALTY := by
  refine ⟨by decide, (claim_C4_hinter_reward none eventFailW).1 (by decide), rfl, ?_⟩
  exact ((claim_C4_hinter_reward none eventW).2 rfl).1.mpr rfl

/-- Counterexample to claim C5 as stated: setting
`BOARD_WORD_USE_PENALTY` in the reward configuration is ignored — the
constructed module still holds the hard-coded `-8` (only
`FORMAT_PENALTY` is read from the configuration). -/
theorem claim_C5_counterexample :
    (RewardModule.init (some { BOARD_WORD_USE_PENALTY := some 0 })).BOARD_WORD_USE_PENALTY = -8
    ∧ ((-8 : Int) ≠ 0) := by
  exact ⟨rfl, by decide⟩

/-- The guesser-reward fold accumulates exactly the per-outcome weights. -/
theorem guesser_fold_sum (rm : RewardModule) (l : List GuessResult) (acc : Int) :
    l.foldl
      (fun acc r =>
        match r.result with
        | Outcome.already_guessed => acc - 12
        | Outcome.correct => acc + rm.CORRECT_GUESS_REWARD_WEIGHT
        | Outcome.neutral => acc - rm.NEUTRAL_GUESS_PENALTY_WEIGHT
        | Outcome.opponent => acc - rm.OPPONENT_GUESS_PENALTY_WEIGHT
        | Outcome.invalid => acc) acc
    = acc + (l.map (fun g => rm.outcomeWeight g.result)).sum := by
  induction l generalizing acc with
  | nil => simp
  | cons g rest ih =>
    simp only [List.foldl_cons, List.map_cons, List.sum_cons, ih]
    cases hg : g.result <;> simp [RewardModule.outcomeWeight, hg] <;> ring

/-- Claim C5 as amended: the guesser reward is `FORMAT_PENALTY` when the
player result's success flag is not true, and otherwise the sum of the
per-outcome weights (`+CORRECT_GUESS_REWARD_WEIGHT` for `correct`, the
fixed `-12` for `already_guessed`, `-NEUTRAL_GUESS_PENALTY_WEIGHT` for
`neutral`, `-OPPONENT_GUESS_PENALTY_WEIGHT` for `opponent`, `0` for
`invalid`); of the six recognized weights only `FORMAT_PENALTY` is taken
from the supplied configuration — the other five are the hard-coded
constants whatever the configuration says. -/
theorem claim_C5_guesser_reward (cfg : Option RewardConfigDict) (event : LogEvent) :
    (event.player_result.success ≠ some true →
      ((RewardModule.init cfg).reward_function event).2 = (RewardModule.init cfg).FORMAT_PENALTY)
    ∧ (event.player_result.success = some true →
        ((RewardModule.init cfg).reward_function event).2 =
          (event.player_result.getResults.map
            (fun g => (RewardModule.init cfg).outcomeWeight g.result)).sum)
    ∧ (RewardModule.init cfg).FORMAT_PENALTY =
        (match cfg with
          | some c => c.FORMAT_PENALTY.getD (-10)
          | none => -10)
    ∧ (RewardModule.init cfg).BOARD_WORD_USE_PENALTY = -8
    ∧ (RewardModule.init cfg).VALID_HINT_REWARD = 5
    ∧ (RewardModule.init cfg).CORRECT_GUESS_REWARD_WEIGHT = 5
    ∧ (RewardModule.init cfg).NEUTRAL_GUESS_PENALTY_WEIGHT = 2
    ∧ (RewardModule.init cfg).OPPONENT_GUESS_PENALTY_WEIGHT = 5 := by
  refine ⟨?_, ?_, rfl, rfl, rfl, rfl, rfl, rfl⟩
  · intro hfail
    simp [RewardModule.reward_function, hfail]
  · intro hsucc
    simp only [RewardModule.reward_function, hsucc, ne_eq, not_true_eq_false, if_false]
    rw [guesser_fold_sum]
    simp

/-- Witness for the amended claim C5: the reward scenario "one `correct`
and one `opponent` guess" scores
`CORRECT_GUESS_REWARD_WEIGHT - OPPONENT_GUESS_PENALTY_WEIGHT`, and a
failed player result scores `FORMAT_PENALTY`. -/
theorem claim_C5_guesser_reward_witness :
    eventW.player_result.success = some true
    ∧ (rmW.reward_function eventW).2 =
        rmW.CORRECT_GUESS_REWARD_WEIGHT - rmW.OPPONENT_GUESS_PENALTY_WEIGHT
    ∧ (rmW.reward_function eventFailW).2 = rmW.FORMAT_PENALTY := by
  refine ⟨rfl, ?_, (claim_C5_guesser_reward none eventFailW).1 (by decide)⟩
  have h := (claim_C5_guesser_reward none eventW).2.1 rfl
  show ((RewardModule.init none).reward_function eventW).2 =
    (RewardModule.init none).CORRECT_GUESS_REWARD_WEIGHT -
      (RewardModule.init none).OPPONENT_GUESS_PENALTY_WEIGHT
  rw [h]
  decide

/-- The episode loop's final step count never exceeds the larger of the
step limit and the count it started from. -/
theorem run_episode_count_le (stepF : Environment → Nat → Environment × Bool) :
    ∀ (fuel : Nat) (env : Environment) (c limit : Nat), limit - c ≤ fuel →
      (OllamaOrchestrator.run_episode stepF env c limit).2 ≤ max c limit := by
  intro fuel
  induction fuel with
  | zero =>
    intro env c limit hf
    have hlc : limit ≤ c := by omega
    rw [OllamaOrchestrator.run_episode.eq_def, dif_pos (Or.inr hlc)]
    exact le_max_left c limit
  | succ n ih =>
    intro env c limit hf
    by_cases h : env.check_win = true ∨ limit ≤ c
    · rw [OllamaOrchestrator.run_episode.eq_def, dif_pos h]
      exact le_max_left c limit
    · rw [OllamaOrchestrator.run_episode.eq_def, dif_neg h]
      have hc : c < limit := by
        rcases not_or.mp h with ⟨_, h2⟩
        omega
      cases hsv : (stepF env c).2 with
      | true =>
        simp only [hsv, if_true]
        have hrec := ih (stepF env c).1 (c + 1) limit (by omega)
        have h1 : max (c + 1) limit = limit := Nat.max_eq_right (by omega)
        have h2 : max c limit = limit := Nat.max_eq_right (by omega)
        omega
      | false =>
        simp only [hsv, Bool.false_eq_true, if_false]
        show c + 1 ≤ max c limit
        have h2 : max c limit = limit := Nat.max_eq_right (by omega)
        omega

/-- Always-failing turn oracle used by the witness. -/
def stepFailW : Environment → Nat → Environment × Bool := fun e _ => (e, false)

/-- Environment `envW` after its single team word has been guessed, so
that `check_win` holds. -/
def envWinW : Environment := { envW with guessed_words := ["a"] }

/-- Claim C8: the episode loop executes at most `limit` steps (starting
from step count `c` it ends at a count never above `max c limit`); it
returns `success = true` without calling the step body as soon as the
win check holds or the count has reached the limit; it stops immediately
after a step whose record has `success = false`, returning
`success = false` at count `c + 1`; and after a successful step it
continues from the updated state with the count incremented. -/
theorem claim_C8_run_episode (stepF : Environment → Nat → Environment × Bool)
    (env env' : Environment) (c limit : Nat) :
    ((OllamaOrchestrator.run_episode stepF env c limit).2 ≤ max c limit)
    ∧ (env.check_win = true →
        OllamaOrchestrator.run_episode stepF env c limit = (true, c))
    ∧ (limit ≤ c →
        OllamaOrchestrator.run_episode stepF env c limit = (true, c))
    ∧ (env.check_win = false → c < limit → stepF env c = (env', false) →
        OllamaOrchestrator.run_episode stepF env c limit = (false, c + 1))
    ∧ (env.check_win = false → c < limit → stepF env c = (env', true) →
        OllamaOrchestrator.run_episode stepF env c limit =
          OllamaOrchestrator.run_episode stepF env' (c + 1) limit) := by
  have hnotor : env.check_win = false → c < limit →
      ¬(env.check_win = true ∨ limit ≤ c) := by
    intro hw hc hor
    rcases hor with h1 | h2
    · rw [hw] at h1
      exact Bool.false_ne_true h1
    · omega
  refine ⟨run_episode_count_le stepF (limit - c) env c limit le_rfl, ?_, ?_, ?_, ?_⟩
  · intro hwin
    rw [OllamaOrchestrator.run_episode.eq_def, dif_pos (Or.inl hwin)]
  · intro hle
    rw [OllamaOrchestrator.run_episode.eq_def, dif_pos (Or.inr hle)]
  · intro hw hc hstep
    rw [OllamaOrchestrator.run_episode.eq_def, dif_neg (hnotor hw hc)]
    simp [hstep]
  · intro hw hc hstep
    rw [OllamaOrchestrator.run_episode.eq_def, dif_neg (hnotor hw hc)]
    simp [hstep]

/-- Witness for claim C8: with an always-failing step the loop stops
after one step with `success = false`; on an already-won environment it
returns `success = true` at once; at an exhausted limit likewise. -/
theorem claim_C8_run_episode_witness :
    OllamaOrchestrator.run_episode stepFailW envW 0 5 = (false, 1)
    ∧ OllamaOrchestrator.run_episode stepFailW envWinW 0 5 = (true, 0)
    ∧ OllamaOrchestrator.run_episode stepFailW envW 5 3 = (true, 5) := by
  refine ⟨?_, ?_, ?_⟩
  · exact (claim_C8_run_episode stepFailW envW envW 0 5).2.2.2.1 (by decide) (by decide) rfl
  · exact (claim_C8_run_episode stepFailW envWinW envWinW 0 5).2.1 (by decide)
  · exact (claim_C8_run_episode stepFailW envW envW 5 3).2.2.1 (by decide)

/-- In both team configurations, `_setup_board` sets the board to the
first `max_words` entries of the shuffled word list. -/
theorem setup_board_board (shuffle1 shuffle2 : List String → List String)
    (env : Environment) (word_list : List String) :
    (env.setup_board shuffle1 shuffle2 word_list).board =
      (shuffle1 word_list).take env.max_words := by
  unfold Environment.setup_board
  by_cases h : env.teams > 1 <;> simp [h]

/-- Word source yielding three words, fewer than any default board
requires. -/
def readLinesW : String → List String := fun _ => ["alpha", "beta", "gamma"]

/-- Default config with a word file set (teams 1, board size 25, not in
test mode). -/
def cfgW : EnvConfig := { word_list_file := some "words.txt" }

/-- Default config with no word source and no test flag. -/
def cfgNoSourceW : EnvConfig := {}

/-- Board length of a setup result, for stating the counterexample
without binders. -/
def boardLengthOf : Except String Environment → Option Nat
  | Except.ok e => some e.board.length
  | Except.error _ => none

/-- Counterexample to claim C9 as stated: a word source yielding only 3
words (fewer than the 25-word board and 8-word team set require) does
*not* make setup fail — it succeeds and produces a 3-word board instead
of one of the configured size 25. -/
theorem claim_C9_counterexample :
    boardLengthOf (Environment.init cfgW readLinesW id id) = some 3
    ∧ cfgW.max_words = 25 := by
  exact ⟨rfl, rfl⟩

/-- Claim C9 as amended: setup fails (with the `ValueError`
"No word list provided in config") exactly when no word source is
supplied and the caller is not in explicit test mode; with a word source
it always succeeds — never checking the pool size — and produces a board
of `min(configured size, number of supplied words)` words; in test mode
without a source it succeeds with an empty board. -/
theorem claim_C9_environment_init (cfg : EnvConfig) (read_lines : String → List String)
    (shuffle1 shuffle2 : List String → List String)
    (hs1 : ∀ l, (shuffle1 l).Perm l) :
    ((cfg.word_list_file.getD "") ≠ "" →
      ∃ env, Environment.init cfg read_lines shuffle1 shuffle2 = Except.ok env
        ∧ env.board.length =
            min cfg.max_words (read_lines (cfg.word_list_file.getD "")).length)
    ∧ ((cfg.word_list_file.getD "") = "" → cfg.test_flag = true →
        ∃ env, Environment.init cfg read_lines shuffle1 shuffle2 = Except.ok env
          ∧ env.board = [])
    ∧ ((cfg.word_list_file.getD "") = "" → cfg.test_flag = false →
        Environment.init cfg read_lines shuffle1 shuffle2 =
          Except.error "No word list provided in config") := by
  refine ⟨?_, ?_, ?_⟩
  · intro hfile
    unfold Environment.init
    rw [if_pos hfile]
    refine ⟨_, rfl, ?_⟩
    rw [setup_board_board, List.length_take, (hs1 _).length_eq]
  · intro hfile htest
    unfold Environment.init
    rw [if_neg (fun hcon => hcon hfile), if_pos htest]
    exact ⟨_, rfl, rfl⟩
  · intro hfile htest
    unfold Environment.init
    rw [if_neg (fun hcon => hcon hfile), if_neg (by simp [htest])]

/-- Witness for the amended claim C9: the three-word source yields a
successful setup with a `min 25 3 = 3`-word board, and the sourceless
non-test config fails with the configuration error. -/
theorem claim_C9_environment_init_witness :
    (∃ env, Environment.init cfgW readLinesW id id = Except.ok env
      ∧ env.board.length = min cfgW.max_words (readLinesW "words.txt").length)
    ∧ Environment.init cfgNoSourceW readLinesW id id =
        Except.error "No word list provided in config" := by
  have h := claim_C9_environment_init cfgW readLinesW id id (fun l => List.Perm.refl l)
  have h2 := claim_C9_environment_init cfgNoSourceW readLinesW id id (fun l => List.Perm.refl l)
  exact ⟨h.1 (by decide), h2.2.2 rfl rfl⟩

/-- One agent call recorded: the call counter advances by one. -/
def bumpCalls (m : BenchmarkAgent) : BenchmarkAgent := { m with calls := m.calls + 1 }

/-- When every agent answers its next call, round 1 produces a response
per agent and advances every counter by one. -/
theorem crossTalkRound1_shape (initial_prompt : String) :
    ∀ (models : List BenchmarkAgent),
      (∀ m ∈ models, ∀ p, (m.behavior m.calls p).isSome = true) →
      ∃ rs, crossTalkRound1 initial_prompt models = some (rs, models.map bumpCalls) := by
  intro models
  induction models with
  | nil => exact fun _ => ⟨[], rfl⟩
  | cons m ms ih =>
    intro h
    obtain ⟨r, hr⟩ :=
      Option.isSome_iff_exists.mp (h m (List.mem_cons_self m ms) initial_prompt)
    obtain ⟨rs, hrs⟩ := ih (fun x hx p => h x (List.mem_cons_of_mem m hx) p)
    refine ⟨r :: rs, ?_⟩
    simp only [crossTalkRound1, BenchmarkAgent.generate_player_action, hr, Option.map_some',
      hrs, List.map_cons]
    rfl

/-- When every agent answers its next call, round 2 likewise produces a
response per agent and advances every counter by one. -/
theorem crossTalkRound2_shape (r1raws : List String) (hint_text : String) :
    ∀ (models : List BenchmarkAgent) (idx : Nat),
      (∀ m ∈ models, ∀ p, (m.behavior m.calls p).isSome = true) →
      ∃ rs, crossTalkRound2 r1raws hint_text models idx = some (rs, models.map bumpCalls) := by
  intro models
  induction models with
  | nil => exact fun _ _ => ⟨[], rfl⟩
  | cons m ms ih =>
    intro idx h
    obtain ⟨r, hr⟩ := Option.isSome_iff_exists.mp (h m (List.mem_cons_self m ms)
      (format_cross_pollination_prompt hint_text (r1raws.getD idx "")
        (teammateThoughts r1raws idx)))
    obtain ⟨rs, hrs⟩ := ih (idx + 1) (fun x hx p => h x (List.mem_cons_of_mem m hx) p)
    refine ⟨r :: rs, ?_⟩
    simp only [crossTalkRound2, BenchmarkAgent.generate_player_action, hr, Option.map_some',
      hrs, List.map_cons]
    rfl

/-- Claim C7: for a team given as `ms ++ [j]` whose agents answer the
calls made of them (two per ordinary guesser, three for the last agent),
the consensus protocol succeeds, every non-judge guesser ends with its
call counter advanced by exactly 2, the judge — the *last* agent of the
configured list — by exactly 3, and the team's final action and raw text
are exactly the judge's phase-3 (third-call) output. -/
theorem claim_C7_crosstalk_consensus (ms : List BenchmarkAgent) (j : BenchmarkAgent)
    (initial_prompt hint_text : String)
    (hms : ∀ m ∈ ms, ∀ k, k < 2 → ∀ p, (m.behavior (m.calls + k) p).isSome = true)
    (hj : ∀ k, k < 3 → ∀ p, (j.behavior (j.calls + k) p).isSome = true) :
    ∃ res, CrossTalkModule.execute (ms ++ [j]) initial_prompt hint_text = some res
      ∧ (∀ i, i < ms.length →
          res.2.2.get? i = (ms.get? i).map (fun m => { m with calls := m.calls + 2 }))
      ∧ res.2.2.getLast? = some { j with calls := j.calls + 3 }
      ∧ ∃ pj, j.behavior (j.calls + 2) pj = some (res.1, res.2.1) := by
  have hall1 : ∀ m ∈ ms ++ [j], ∀ p, (m.behavior m.calls p).isSome = true := by
    intro m hm p
    rcases List.mem_append.mp hm with h | h
    · simpa using hms m h 0 (by omega) p
    · obtain rfl := List.mem_singleton.mp h
      simpa using hj 0 (by omega) p
  obtain ⟨rs1, h1⟩ := crossTalkRound1_shape initial_prompt (ms ++ [j]) hall1
  have hall2 : ∀ m ∈ (ms ++ [j]).map bumpCalls, ∀ p, (m.behavior m.calls p).isSome = true := by
    intro m hm p
    obtain ⟨m0, hm0, rfl⟩ := List.mem_map.mp hm
    rcases List.mem_append.mp hm0 with h | h
    · exact hms m0 h 1 (by omega) p
    · obtain rfl := List.mem_singleton.mp h
      exact hj 1 (by omega) p
  obtain ⟨rs2, h2⟩ :=
    crossTalkRound2_shape (rs1.map Prod.snd) hint_text ((ms ++ [j]).map bumpCalls) 0 hall2
  have hmodels2 : ((ms ++ [j]).map bumpCalls).map bumpCalls =
      ms.map (fun m => bumpCalls (bumpCalls m)) ++ [bumpCalls (bumpCalls j)] := by
    rw [List.map_map, List.map_append]
    rfl
  obtain ⟨out, hout⟩ := Option.isSome_iff_exists.mp
    (hj 2 (by omega) (format_judge_prompt hint_text (judgeProposals (rs2.map Prod.snd))))
  have hjudge : (bumpCalls (bumpCalls j)).generate_player_action
      (format_judge_prompt hint_text (judgeProposals (rs2.map Prod.snd))) =
      some (out, bumpCalls (bumpCalls (bumpCalls j))) := by
    unfold BenchmarkAgent.generate_player_action
    have hb : (bumpCalls (bumpCalls j)).behavior (bumpCalls (bumpCalls j)).calls
        (format_judge_prompt hint_text (judgeProposals (rs2.map Prod.snd))) = some out := hout
    rw [hb]
    rfl
  have hexec : CrossTalkModule.execute (ms ++ [j]) initial_prompt hint_text =
      some (out.1, out.2,
        ms.map (fun m => bumpCalls (bumpCalls m)) ++ [bumpCalls (bumpCalls (bumpCalls j))]) := by
    simp only [CrossTalkModule.execute, h1, h2, hmodels2, List.getLast?_concat, hjudge,
      List.dropLast_concat]
  refine ⟨_, hexec, ?_, ?_, ?_⟩
  · intro i hi
    have hlen : i < (ms.map (fun m => bumpCalls (bumpCalls m))).length := by
      simpa using hi
    show (ms.map (fun m => bumpCalls (bumpCalls m)) ++
        [bumpCalls (bumpCalls (bumpCalls j))]).get? i =
      (ms.get? i).map (fun m => { m with calls := m.calls + 2 })
    rw [List.get?_append hlen, List.get?_map]
    rfl
  · show (ms.map (fun m => bumpCalls (bumpCalls m)) ++
        [bumpCalls (bumpCalls (bumpCalls j))]).getLast? = some { j with calls := j.calls + 3 }
    rw [List.getLast?_concat]
    rfl
  · exact ⟨format_judge_prompt hint_text (judgeProposals (rs2.map Prod.snd)), hout⟩

/-- Round-1/round-2 responses of the test scenario's first guesser. -/
def mockResponsesP1 : List (PlayerActionMessage × String) :=
  [({ guesses := Json.arr [Json.str "gold"] }, "Thought: gold is shiny"),
   ({ guesses := Json.arr [Json.str "gold"] }, "Refined: gold still shiny")]

/-- First guesser of the scenario: proposes `gold` in both rounds. -/
def mockP1 : BenchmarkAgent := { behavior := fun k _ => mockResponsesP1.get? k }

/-- Responses of the second guesser (also the judge): `diamond`, then
`gold`, then the judge output `gold`. -/
def mockResponsesP2 : List (PlayerActionMessage × String) :=
  [({ guesses := Json.arr [Json.str "diamond"] }, "Thought: diamond is shiny"),
   ({ guesses := Json.arr [Json.str "gold"] }, "Refined: gold is better"),
   ({ guesses := Json.arr [Json.str "gold"] }, "Judge: Consensus is gold")]

/-- Second guesser of the scenario, judge by position. -/
def mockP2 : BenchmarkAgent := { behavior := fun k _ => mockResponsesP2.get? k }

/-- Witness for claim C7, the two-guesser scenario: guesser 0 ends with
2 calls, guesser 1 (the judge) with 3, and the final team action is a
guess action with guesses `["gold"]`. -/
theorem claim_C7_crosstalk_consensus_witness :
    ∃ res, CrossTalkModule.execute [mockP1, mockP2] "initial" "shiny" = some res
      ∧ res.2.2.get? 0 = some { mockP1 with calls := 2 }
      ∧ res.2.2.getLast? = some { mockP2 with calls := 3 }
      ∧ res.1.guesses = Json.arr [Json.str "gold"] := by
  obtain ⟨res, hexec, hget, hlast, pj, hbeh⟩ :=
    claim_C7_crosstalk_consensus [mockP1] mockP2 "initial" "shiny"
      (by
        intro m hm k hk p
        obtain rfl := List.mem_singleton.mp hm
        interval_cases k
        · rfl
        · rfl)
      (by
        intro k hk p
        interval_cases k
        · rfl
        · rfl
        · rfl)
  refine ⟨res, hexec, ?_, hlast, ?_⟩
  · exact hget 0 (by decide)
  · have h2 : mockP2.behavior (mockP2.calls + 2) pj =
        some ({ guesses := Json.arr [Json.str "gold"] }, "Judge: Consensus is gold") := rfl
    exact congrArg PlayerActionMessage.guesses
      (congrArg Prod.fst (Option.some.inj (hbeh.symm.trans h2)))

/-! Claim C6: the action codec. -/

/-- Character list of the guesses JSON object of the claim. -/
def guessesJsonChars : List Char :=
  String.toList "\x7b\"guesses\": [\"gold\",\"diamond\"]\x7d"

/-- The same object without its outer braces. -/
def guessesInnerChars : List Char :=
  String.toList "\"guesses\": [\"gold\",\"diamond\"]"

theorem guessesJson_decomp :
    guessesJsonChars = lbraceChar :: (guessesInnerChars ++ [rbraceChar]) := by
  decide

/-- A text whose result block does not contain the guesses JSON object:
the codec restricts its search to the block, finds no brace group there,
and the whole-text JSON fallback fails on the leading prose. -/
def textC6 : String := "<RESULT>\nfoo\n</RESULT> \x7b\"guesses\": [\"gold\",\"diamond\"]\x7d"

/-- Taking while a predicate holds of every prefix element stops exactly
at the first failing element. -/
theorem takeWhile_append_cons (p : Char → Bool) (xs : List Char)
    (h : ∀ x ∈ xs, p x = true) (y : Char) (hy : p y = false) (ys : List Char) :
    (xs ++ y :: ys).takeWhile p = xs := by
  induction xs with
  | nil => simp [List.takeWhile_cons, hy]
  | cons x xs' ih =>
    have hx := h x (List.mem_cons_self x xs')
    simp [List.takeWhile_cons, hx, ih (fun z hz => h z (List.mem_cons_of_mem x hz))]

/-- The brace-group search finds exactly the guesses object when it is
preceded by brace-free text (whatever follows it). -/
theorem findGuessesJson_wrapped (A B : List Char)
    (hA : ∀ c ∈ A, c ≠ lbraceChar ∧ c ≠ rbraceChar) :
    findGuessesJson (A ++ guessesJsonChars ++ B) = some guessesJsonChars := by
  induction A with
  | nil =>
    have hassoc : ([] : List Char) ++ guessesJsonChars ++ B =
        lbraceChar :: (guessesInnerChars ++ rbraceChar :: B) := by
      rw [guessesJson_decomp]
      simp
    rw [hassoc]
    have hspan : (guessesInnerChars ++ rbraceChar :: B).takeWhile
        (fun d => d != lbraceChar && d != rbraceChar) = guessesInnerChars :=
      takeWhile_append_cons _ _ (by decide) _ (by decide) _
    have hdrop : (guessesInnerChars ++ rbraceChar :: B).drop guessesInnerChars.length =
        rbraceChar :: B := List.drop_left _ _
    simp only [findGuessesJson, beq_self_eq_true, if_true, hspan, hdrop]
    rw [if_pos (by decide)]
    rw [guessesJson_decomp]
  | cons a A' ih =>
    have ha := hA a (List.mem_cons_self a A')
    have hne : (a == lbraceChar) = false := beq_eq_false_iff_ne.mpr ha.1
    have ih' := ih (fun c hc => hA c (List.mem_cons_of_mem a hc))
    show findGuessesJson (a :: (A' ++ guessesJsonChars ++ B)) = some guessesJsonChars
    simp only [findGuessesJson, hne, Bool.false_eq_true, if_false]
    exact ih'

/-- When the brace-group search over the searched region returns exactly
the guesses object, the player decoder returns the guess action with
guesses `["gold", "diamond"]`. -/
theorem parse_player_of_region (t : String)
    (hfind : findGuessesJson ((resultBlockContent t.data).getD t.data) =
      some guessesJsonChars) :
    parse_player_response t =
      some { guesses := Json.arr [Json.str "gold", Json.str "diamond"] } := by
  simp only [parse_player_response, hfind]
  rfl

/-- Counterexample to claim C6 as stated: this text contains the JSON
object `\x7b"guesses": ["gold","diamond"]\x7d` verbatim, yet decodes to
`none` — the text's result block does not contain the object, the search
is restricted to the block, and the whole-text JSON fallback fails. -/
theorem claim_C6_counterexample :
    containsChars textC6.data guessesJsonChars = true
    ∧ parse_player_response textC6 = none := by
  exact ⟨rfl, rfl⟩

/-- Claim C6 as amended: the hint decoder decodes
`"<RESULT>\nHINT: apple NUMBER: 2\n</RESULT>"` to the hint action
`(apple, 2)`; it returns `none` on pattern-free text and on a
non-numeric number; the player decoder returns `none` on unparsable
JSON; and any text containing the JSON object
`\x7b"guesses": ["gold","diamond"]\x7d` in its *searched region* — the
first result block's contents when a block is present, else the whole
text — preceded there by brace-free text, decodes to the guess action
with guesses `["gold", "diamond"]` (in particular the object wrapped in
a result block with preceding prose).  Both decoders are total functions
into `Option`: no input makes them raise. -/
theorem claim_C6_action_codec :
    parse_master_response "<RESULT>\nHINT: apple NUMBER: 2\n</RESULT>" =
      some { hint_word := "apple", hint_number := 2 }
    ∧ parse_master_response "no hint here" = none
    ∧ parse_master_response "HINT: apple NUMBER: two" = none
    ∧ parse_player_response "no hint here" = none
    ∧ ∀ (t : String) (A B : List Char),
        (∀ c ∈ A, c ≠ lbraceChar ∧ c ≠ rbraceChar) →
        (resultBlockContent t.data).getD t.data = A ++ guessesJsonChars ++ B →
        parse_player_response t =
          some { guesses := Json.arr [Json.str "gold", Json.str "diamond"] } := by
  refine ⟨rfl, rfl, rfl, rfl, ?_⟩
  intro t A B hA hre
  refine parse_player_of_region t ?_
  rw [hre]
  exact findGuessesJson_wrapped A B hA

/-- Witness for the amended claim C6: a response with prose before and
around a result block that wraps the guesses object decodes to the guess
action `["gold", "diamond"]`. -/
theorem claim_C6_action_codec_witness :
    parse_player_response
        "I think.\n<RESULT>\nThe answer: \x7b\"guesses\": [\"gold\",\"diamond\"]\x7d\n</RESULT>\nthanks" =
      some { guesses := Json.arr [Json.str "gold", Json.str "diamond"] } := by
  exact claim_C6_action_codec.2.2.2.2
    "I think.\n<RESULT>\nThe answer: \x7b\"guesses\": [\"gold\",\"diamond\"]\x7d\n</RESULT>\nthanks"
    (String.toList "\nThe answer: ") (String.toList "\n")
    (by decide) (by decide)

end Faebench
